import Mathlib

/-!
Verification of the BBQ embedded file-backed job queue (knfs-library/bbq).

This file gives a shallow embedding, in Lean 4, of the coordination core of
the library: the Queue pipeline/fails model (`lib/cjs/queue.js`), the Worker
job registry and dispatch selection (`lib/cjs/worker.js`), the Dispatcher
worker registry (`lib/cjs/index.js`), and the Job retry loop
(`lib/esm/queue.mjs`, Job class).  Pure functions of the source are
translated into Lean functions; stateful methods become explicit
state-passing functions; the event-driven parts (timers, retries) become
event traces or step relations.  External collaborators (the AES block
cipher, MD5, Node Buffer UTF-8 codec, JSON serialization) are modelled
either abstractly (function parameters with the interface properties the
core relies on) or by direct executable models of the documented
byte-level formats.

JavaScript numbers that the core uses as counters and timestamps are
modelled as `Nat`; JavaScript `undefined`/`null` results are modelled as
`Option.none`.
-/

namespace BBQ

/-! ## Byte-level utilities: UTF-8 and hex

Node's `Buffer.byteLength(s, "utf8")`, `Buffer.from(s, "utf8")` and the
`"hex"` codec used by `cipher.update/final` are external collaborators;
they are modelled here by executable byte-level definitions of the
documented formats.  Bytes are `Nat` values below 256.
-/

/-- UTF-8 encoding of a single code point (the scalar value of a `Char`). -/
def utf8CharBytes (c : Char) : List Nat :=
  let n := c.toNat
  if n < 0x80 then [n]
  else if n < 0x800 then [0xC0 + n / 0x40, 0x80 + n % 0x40]
  else if n < 0x10000 then
    [0xE0 + n / 0x1000, 0x80 + (n / 0x40) % 0x40, 0x80 + n % 0x40]
  else
    [0xF0 + n / 0x40000, 0x80 + (n / 0x1000) % 0x40, 0x80 + (n / 0x40) % 0x40,
      0x80 + n % 0x40]

/-- UTF-8 bytes of a string (model of `Buffer.from(s, "utf8")`). -/
def utf8Bytes (s : String) : List Nat :=
  (s.data.map utf8CharBytes).flatten

/-- Model of `Buffer.byteLength(s, "utf8")`. -/
def utf8Length (s : String) : Nat :=
  (utf8Bytes s).length

/-- Take one UTF-8 continuation byte (range `[0x80, 0xC0)`), returning its
6-bit payload and the remaining bytes. -/
def utf8TakeCont : List Nat → Option (Nat × List Nat)
  | [] => none
  | b :: rest => if 0x80 ≤ b ∧ b < 0xC0 then some (b - 0x80, rest) else none

/-- UTF-8 decoding of a byte list, the inverse of `utf8Bytes` on encoded
input.  Structural recursion on a fuel argument (one unit per decoded
character, so the byte count always suffices); the lead byte selects the
sequence length, continuation bytes are consumed by `utf8TakeCont`. -/
def utf8DecodeFuel : Nat → List Nat → Option (List Char)
  | _, [] => some []
  | 0, _ => none
  | fuel + 1, b :: rest =>
    if b < 0x80 then
      (utf8DecodeFuel fuel rest).map (fun cs => Char.ofNat b :: cs)
    else if b < 0xC2 then none
    else if b < 0xE0 then
      (utf8TakeCont rest).bind (fun p1 =>
        (utf8DecodeFuel fuel p1.2).map
          (fun cs => Char.ofNat ((b - 0xC0) * 0x40 + p1.1) :: cs))
    else if b < 0xF0 then
      (utf8TakeCont rest).bind (fun p1 =>
        (utf8TakeCont p1.2).bind (fun p2 =>
          (utf8DecodeFuel fuel p2.2).map
            (fun cs => Char.ofNat ((b - 0xE0) * 0x1000 + p1.1 * 0x40 + p2.1) :: cs)))
    else if b < 0xF5 then
      (utf8TakeCont rest).bind (fun p1 =>
        (utf8TakeCont p1.2).bind (fun p2 =>
          (utf8TakeCont p2.2).bind (fun p3 =>
            (utf8DecodeFuel fuel p3.2).map
              (fun cs =>
                Char.ofNat
                  ((b - 0xF0) * 0x40000 + p1.1 * 0x1000 + p2.1 * 0x40 + p3.1) :: cs))))
    else none

/-- UTF-8 decoding of a byte list (model of `buffer.toString("utf8")`). -/
def utf8Decode (l : List Nat) : Option (List Char) :=
  utf8DecodeFuel l.length l

/-- Lower-case hex digit for a value below 16 (Node hex encoding is
lower-case). -/
def hexDigit (n : Nat) : Char :=
  if n < 10 then Char.ofNat (48 + n) else Char.ofNat (87 + n)

/-- Hex encoding of a byte list, two digits per byte. -/
def hexOfBytes : List Nat → List Char
  | [] => []
  | b :: l => hexDigit (b / 16) :: hexDigit (b % 16) :: hexOfBytes l

/-- Value of one hex digit character, if any. -/
def hexVal (c : Char) : Option Nat :=
  if 48 ≤ c.toNat ∧ c.toNat ≤ 57 then some (c.toNat - 48)
  else if 97 ≤ c.toNat ∧ c.toNat ≤ 102 then some (c.toNat - 87)
  else none

/-- Hex decoding of a character list back to bytes. -/
def bytesOfHex : List Char → Option (List Nat)
  | [] => some []
  | [_] => none
  | c1 :: c2 :: l =>
    match hexVal c1, hexVal c2, bytesOfHex l with
    | some h, some lo, some bs => some ((h * 16 + lo) :: bs)
    | _, _, _ => none

/-! ## Queue data model (`lib/cjs/queue.js`)

A queue holds a `pipeline` of live messages and a `fails` list.  The
in-memory message record (`msgData` in `addMessage`) carries id, byte
size, on-disk path, creation timestamp, failure timestamp and counter,
and the `typeof` tag of the original value.
-/

/-- Message record kept in `pipeline` / `fails` (`msgData` in
`Queue.addMessage`). -/
structure Message where
  id : String
  size : Nat
  path : String
  createdAt : Nat
  failedAt : Option Nat
  failedCount : Nat
  type : String
  deriving Repr, DecidableEq

/-- The mutable collections of a `Queue`: `#pipeline` and `#fails`. -/
structure QState where
  pipeline : List Message
  fails : List Message
  deriving Repr, DecidableEq

/-- Queue options (`OptionType`).  The defaults file `configs/queue` is not
part of the sources; the fields follow the option bag every queue method
reads. -/
structure QueueOptions where
  size : Nat
  expire : Nat
  limit : Nat
  secretKey : String
  updateMetaTime : Nat
  rebroadcastTime : Nat
  log : Bool
  deriving Repr, DecidableEq

/-- Stable insertion by ascending `createdAt`: a new element goes before
the first strictly-later element and after all equal ones. -/
def insertByCreatedAt (a : Message) : List Message → List Message
  | [] => [a]
  | b :: l =>
    if a.createdAt ≤ b.createdAt then a :: b :: l else b :: insertByCreatedAt a l

/-- Model of `array.sort((a, b) => a.createdAt - b.createdAt)`:
`Array.prototype.sort` is stable, and for a total preorder the stable
sorted permutation is unique, so stable insertion sort computes it. -/
def sortByCreatedAt : List Message → List Message
  | [] => []
  | a :: l => insertByCreatedAt a (sortByCreatedAt l)

/-- The values `typeof` can take on an enqueued payload, together with the
serialized text the external serializer produces for it:
`JSON.stringify` output for an object, decimal rendering for a number.
The serialized text of a number or object is carried as data of the
constructor because the serializers are external collaborators. -/
inductive JsVal where
  | vstr : String → JsVal
  | vnum : String → JsVal
  | vobj : String → JsVal
  | vundef : JsVal
  deriving Repr, DecidableEq

/-- Model of `typeof message` for the payload kinds the queue accepts. -/
def typeofVal : JsVal → String
  | .vstr _ => "string"
  | .vnum _ => "number"
  | .vobj _ => "object"
  | .vundef => "undefined"

/-- Model of `Queue.#formatMessage`: `JSON.stringify` for an object,
`String(message)` otherwise. -/
def formatMessage : JsVal → String
  | .vstr s => s
  | .vnum s => s
  | .vobj s => s
  | .vundef => "undefined"

/-- Model of `Queue.#padKey` (`lib/cjs/queue.js`): slice to the first 32
characters when longer, otherwise `padEnd(32, '0')` — padding with the
character `'0'`.  JavaScript strings are indexed by UTF-16 code units;
the embedding uses the code-point list of a Lean string, which agrees for
keys of basic-plane characters. -/
def padKey (key : String) : String :=
  if key.length > 32 then String.mk (key.data.take 32)
  else String.mk (key.data ++ List.replicate (32 - key.length) (Char.ofNat 48))

/-- Errors raised through `errorFunc` (which throws) on the `addMessage`
validation path. -/
inductive QueueError where
  | queueFull
  | messageUndefined
  | messageTooLarge
  deriving Repr, DecidableEq

/-- The broadcast envelope: the message record spread together with
`queueId` and the decoded `value` (here kept in serialized string form;
`#decrypt` additionally applies `#reformatMessage`, which the claims do
not inspect). -/
structure Envelope where
  msg : Message
  queueId : String
  value : String
  deriving Repr, DecidableEq

/-- Result of one `Queue.addMessage` call: the new collections, the
payload file written (path and content), the envelope broadcast to the
dispatcher, and the error thrown, if any. -/
structure AddResult where
  state : QState
  written : Option (String × String)
  broadcast : Option Envelope
  err : Option QueueError
  deriving Repr, DecidableEq

/-- Model of `Queue.addMessage` (`lib/cjs/queue.js`).  External
collaborators are parameters: `md5` (`crypto.createHash("md5")`), `enc`
and `dec` (the `#encrypt`/`#decrypt` pair, whose concrete definition is
`queueEncrypt` below), `qid` the queue id, `now` the clock, `freshId` the
UUID minted for the message.  Checks happen in source order: pipeline
limit, `typeof undefined`, serialized byte size; each failing check
throws via `errorFunc` before any state change, file write or
broadcast. -/
def qAddMessage (opts : QueueOptions) (qid : String) (md5 enc dec : String → String)
    (st : QState) (v : JsVal) (now : Nat) (freshId : String) : AddResult :=
  if 0 < opts.limit ∧ st.pipeline.length + 1 > opts.limit then
    ⟨st, none, none, some .queueFull⟩
  else if typeofVal v = "undefined" then
    ⟨st, none, none, some .messageUndefined⟩
  else
    let s := formatMessage v
    let sizeInBytes := utf8Length s
    if sizeInBytes > opts.size then
      ⟨st, none, none, some .messageTooLarge⟩
    else
      let filePath := "msgs/" ++ md5 freshId ++ ".knmbbq"
      let msgData : Message :=
        { id := freshId, size := sizeInBytes, path := filePath, createdAt := now,
          failedAt := none, failedCount := 0, type := typeofVal v }
      let stored := enc s
      { state := { st with pipeline := sortByCreatedAt (st.pipeline ++ [msgData]) },
        written := some (filePath, stored),
        broadcast := some ⟨msgData, qid, dec stored⟩,
        err := none }

/-- Model of `Queue.fail` (`lib/cjs/queue.js`).  Returns the new
collections and the record handed back to the caller (`undefined`/`null`
returns are both `none`). -/
def qFail (st : QState) (messageId : String) (now : Nat) : QState × Option Message :=
  match st.fails.find? (fun m => m.id == messageId) with
  | some m => (st, some m)
  | none =>
    match st.pipeline.find? (fun m => m.id == messageId) with
    | some m =>
      let m1 := { m with failedAt := some now, failedCount := m.failedCount + 1 }
      ({ pipeline := st.pipeline.filter (fun x => x.id != messageId),
         fails := sortByCreatedAt (st.fails ++ [m1]) }, some m1)
    | none =>
      ({ st with pipeline := st.pipeline.filter (fun x => x.id != messageId) }, none)

/-- Model of `Queue.getFail`: remove the record from `fails` and hand it
to the caller (the payload read and decryption do not touch the
collections). -/
def qGetFail (st : QState) (messageId : String) : QState × Option Message :=
  match st.fails.find? (fun m => m.id == messageId) with
  | none => (st, none)
  | some m =>
    ({ st with fails := st.fails.filter (fun x => x.id != messageId) }, some m)

/-- Model of the timer body of `Queue.#deleteAfterTimeout`: when the timer
fires, the message is removed from `pipeline` if present there, else from
`fails` if present there. -/
def qTimerFire (st : QState) (key : String) : QState :=
  match st.pipeline.find? (fun m => m.id == key) with
  | some _ => { st with pipeline := st.pipeline.filter (fun x => x.id != key) }
  | none =>
    match st.fails.find? (fun m => m.id == key) with
    | some _ => { st with fails := st.fails.filter (fun x => x.id != key) }
    | none => st

/-! ## Encryption (`aes-256-ecb` via `crypto.createCipheriv`)

The AES-256 block permutation is an external collaborator (spec §1: out of
scope, interface only); it enters the model as a pair of functions
`E k`, `D k` on 16-byte blocks.  The mode layering the queue relies on —
PKCS#7 padding, ECB chunking, hex transport encoding, and deriving the
per-queue key with `#padKey` — is modelled executably as Node's
`cipher.update(m, "utf8", "hex")` / `cipher.final("hex")` documents it.
-/

/-- PKCS#7 padding to 16-byte blocks, as applied by `cipher.final` with
default auto-padding. -/
def pkcs7Pad (l : List Nat) : List Nat :=
  let r := 16 - l.length % 16
  l ++ List.replicate r r

/-- PKCS#7 unpadding with validation, as applied by `decipher.final`. -/
def pkcs7Unpad (l : List Nat) : Option (List Nat) :=
  match l.getLast? with
  | none => none
  | some r =>
    if 1 ≤ r ∧ r ≤ 16 ∧ r ≤ l.length ∧ (l.drop (l.length - r)).all (fun b => b == r) then
      some (l.take (l.length - r))
    else none

/-- Split a byte list into 16-byte blocks.  Structural recursion on a fuel
argument (one unit per block); `chunks16` supplies enough fuel. -/
def chunks16Fuel : Nat → List Nat → List (List Nat)
  | _, [] => []
  | 0, _ => []
  | fuel + 1, l => l.take 16 :: chunks16Fuel fuel (l.drop 16)

/-- Split a byte list into 16-byte blocks (the last may be short when the
length is not a multiple of 16; the cipher layer only chunks padded
data). -/
def chunks16 (l : List Nat) : List (List Nat) :=
  chunks16Fuel l.length l

/-- ECB encryption of a byte list under block function `e`: pad, chunk,
encrypt each block independently, concatenate. -/
def ecbEncrypt (e : List Nat → List Nat) (msg : List Nat) : List Nat :=
  ((chunks16 (pkcs7Pad msg)).map e).flatten

/-- ECB decryption under block function `d`: chunk, decrypt blockwise,
unpad. -/
def ecbDecrypt (d : List Nat → List Nat) (ct : List Nat) : Option (List Nat) :=
  pkcs7Unpad ((chunks16 ct).map d).flatten

/-- Model of `Queue.#encrypt` (`lib/cjs/queue.js`): identity when
`secretKey` is empty, otherwise hex-encoded AES-256-ECB of the UTF-8
plaintext under the `#padKey`-derived key.  `E` is the external block
cipher, keyed by the UTF-8 bytes of the padded key. -/
def queueEncrypt (E : List Nat → List Nat → List Nat) (opts : QueueOptions)
    (message : String) : String :=
  if opts.secretKey = "" then message
  else
    String.mk (hexOfBytes (ecbEncrypt (E (utf8Bytes (padKey opts.secretKey))) (utf8Bytes message)))

/-- Model of `Queue.#decrypt` up to `#reformatMessage` (which re-decodes
the serialized text by `type` and is not inspected by the round-trip
claim): identity when `secretKey` is empty, otherwise hex-decode,
AES-256-ECB-decrypt under the `#padKey`-derived key, and UTF-8-decode.
Failures of the external codecs are `none` (a thrown `CryptoError`). -/
def queueDecrypt (D : List Nat → List Nat → List Nat) (opts : QueueOptions)
    (encryptedMessage : String) : Option String :=
  if opts.secretKey = "" then some encryptedMessage
  else
    match bytesOfHex encryptedMessage.data with
    | none => none
    | some ct =>
      match ecbDecrypt (D (utf8Bytes (padKey opts.secretKey))) ct with
      | none => none
      | some pt =>
        match utf8Decode pt with
        | none => none
        | some cs => some (String.mk cs)

/-! ## Worker (`lib/cjs/worker.js`)

A worker owns a registration-ordered list of job structures and the
`#observerQueue` map from queue id to a pause flag.  JavaScript `Map`
iteration and update order is insertion order; the map is embedded as an
association list updated in place.
-/

/-- One entry of `Worker.#jobs` (the `jobStructure` built by `createJob`):
name, bound queue id, the option fields `run` reads, and the accepted
message buffer.  `instances` and the callback are omitted: the claims
stop at the dispatch selection and append (`#normalJobRun` consumes the
buffer afterwards). -/
structure JobReg where
  name : String
  queueId : String
  workingMessageCount : Nat
  concurrency : Nat
  workingMessage : List Envelope
  deriving Repr, DecidableEq

/-- Association-list lookup for a JavaScript `Map` (first match; keys are
unique by construction of `set`). -/
def mapGet (m : List (String × Bool)) (k : String) : Option Bool :=
  match m.find? (fun p => p.1 == k) with
  | some p => some p.2
  | none => none

/-- Association-list update for `Map.prototype.set`: overwrite the
existing entry in place, else append. -/
def mapSet (m : List (String × Bool)) (k : String) (v : Bool) : List (String × Bool) :=
  match m with
  | [] => [(k, v)]
  | p :: rest => if p.1 == k then (k, v) :: rest else p :: mapSet rest k v

/-- State of a `Worker`: `#jobs` in registration order and
`#observerQueue`. -/
structure WorkerState where
  jobs : List JobReg
  observerQueue : List (String × Bool)
  deriving Repr, DecidableEq

/-- Model of `Worker.existObserverQueue`: the stored flag, or `false` when
the queue id has no entry. -/
def existObserverQueue (w : WorkerState) (queueId : String) : Bool :=
  match mapGet w.observerQueue queueId with
  | some b => b
  | none => false

/-- Eligible jobs of `Worker.run`: bound to the queue and with a
`workingMessage` buffer below `workingMessageCount`. -/
def validJobsFor (w : WorkerState) (queueId : String) : List JobReg :=
  w.jobs.filter (fun job =>
    job.queueId == queueId && decide (job.workingMessage.length < job.workingMessageCount))

/-- The reducer of `Worker.run`:
`(readyJob, currentJob) => readyJob.workingMessage.length < currentJob.workingMessage.length ? readyJob : currentJob`.
The accumulator survives only when strictly smaller, so an equal-length
`currentJob` replaces it. -/
def pickJob (readyJob currentJob : JobReg) : JobReg :=
  if readyJob.workingMessage.length < currentJob.workingMessage.length then readyJob
  else currentJob

/-- Model of `validJobs.reduce(...)`: `Array.prototype.reduce` with no
initial value folds the tail into the head. -/
def chooseJob : List JobReg → Option JobReg
  | [] => none
  | j :: rest => some (rest.foldl pickJob j)

/-- Append to the `workingMessage` of the first job with the given name
(`this.#jobs.find(job => job.name === chooseJob.name)` then `push`). -/
def pushToJob (name : String) (env : Envelope) : List JobReg → List JobReg
  | [] => []
  | j :: rest =>
    if j.name == name then { j with workingMessage := j.workingMessage ++ [env] } :: rest
    else j :: pushToJob name env rest

/-- Model of `Worker.run` up to the dispatch decision: filter the eligible
jobs; with none, pause the queue observer (the queued rebroadcast is the
returned `none`); otherwise append the envelope to the reducer's choice.
Returns the updated worker state and the name of the job that received
the envelope.  The subsequent `#normalJobRun` instance loop is outside
the dispatch-selection claims. -/
def workerRunSelect (w : WorkerState) (queueId : String) (env : Envelope) :
    WorkerState × Option String :=
  match chooseJob (validJobsFor w queueId) with
  | none => ({ w with observerQueue := mapSet w.observerQueue queueId false }, none)
  | some cj => ({ w with jobs := pushToJob cj.name env w.jobs }, some cj.name)

/-- Job options as `createJob` receives them. -/
structure JobOptions where
  retry : Nat
  timeout : Nat
  retryAfter : Nat
  maxListeners : Nat
  concurrency : Nat
  workingMessageCount : Nat
  log : Bool
  deriving Repr, DecidableEq

/-- Error raised by `errorFunc` when a job or worker name is already
taken. -/
inductive RegisterError where
  | nameDuplicate
  deriving Repr, DecidableEq

/-- Model of `Worker.createJob`: duplicate names throw before any
mutation; otherwise the job structure is appended and the observer entry
for the resolved queue id is initialized to `true` only when absent
(`if (!this.#observerQueue.has(queue.id)) set(queue.id, true)`).  The
`dispatcher.getQueue(queueName)` resolution is modelled by passing the
resolved queue id. -/
def createJob (w : WorkerState) (name queueId : String) (opts : JobOptions) :
    Except RegisterError WorkerState :=
  if w.jobs.any (fun j => j.name == name) then .error .nameDuplicate
  else
    let jobStructure : JobReg :=
      { name := name, queueId := queueId,
        workingMessageCount := opts.workingMessageCount,
        concurrency := opts.concurrency, workingMessage := [] }
    .ok { w with
      jobs := w.jobs ++ [jobStructure],
      observerQueue :=
        if (mapGet w.observerQueue queueId).isSome then w.observerQueue
        else mapSet w.observerQueue queueId true }

/-! ## Dispatcher worker registry (`lib/cjs/index.js`) -/

/-- Worker options (`configs/worker` is absent from the sources).
Modelled from the spec: `log` boolean, `priority` integer (higher is
matched earlier, default 1), `intervalRunJob` milliseconds (default
2000). -/
structure WorkerOptions where
  log : Bool
  priority : Int
  intervalRunJob : Nat
  deriving Repr, DecidableEq

/-- A constructed `Worker` object as the dispatcher stores it.  The
constructor (`lib/cjs/worker.js`) defines the own properties `id` and
`name` and keeps the option bag in the private field `#options`. -/
structure WorkerObj where
  name : String
  options : WorkerOptions
  deriving Repr, DecidableEq

/-- JavaScript property access `worker.priority` on a `Worker` instance:
`priority` is not an own or inherited property (it lives only inside the
private `#options` field), so the access evaluates to `undefined`,
modelled as `none`. -/
def priorityProp (_ : WorkerObj) : Option Int := none

/-- The comparator `(a, b) => b.priority - a.priority` under the
ECMAScript `SortCompare` semantics: with both operands `undefined` the
subtraction is `NaN`, and `SortCompare` maps a `NaN` comparator result to
`+0`. -/
def workerCompare (a b : WorkerObj) : Int :=
  match priorityProp b, priorityProp a with
  | some pb, some pa => pb - pa
  | _, _ => 0

/-- Stable insertion for a JavaScript-style comparator (`cmp a b ≤ 0`
keeps `a` before `b`; equal elements keep their original order). -/
def stableInsertCmp (cmp : WorkerObj → WorkerObj → Int) (a : WorkerObj) :
    List WorkerObj → List WorkerObj
  | [] => [a]
  | b :: l => if cmp a b ≤ 0 then a :: b :: l else b :: stableInsertCmp cmp a l

/-- Model of `Array.prototype.sort(cmp)` for a consistent comparator:
the sort is required to be stable, and stable insertion sort computes the
unique stable sorted permutation. -/
def stableSortCmp (cmp : WorkerObj → WorkerObj → Int) : List WorkerObj → List WorkerObj
  | [] => []
  | a :: l => stableInsertCmp cmp a (stableSortCmp cmp l)

/-- Model of `Dispatcher.createWorker`: duplicate names throw; otherwise
the new worker is pushed and the array re-sorted with
`(a, b) => b.priority - a.priority`. -/
def createWorker (workers : List WorkerObj) (name : String) (opts : WorkerOptions) :
    Except RegisterError (List WorkerObj) :=
  if workers.any (fun nWorker => nWorker.name == name) then .error .nameDuplicate
  else .ok (stableSortCmp workerCompare (workers ++ [⟨name, opts⟩]))

/-! ## Job retry loop (`lib/esm/queue.mjs`, class `Job`)

`Job.try(msg, type)` increments `#tried`, notifies
`worker.downMessage(name, msg)`, and runs the callback inside the timeout
race.  On error the message is failed to the queue and, while
`#tried < retry + 1`, `#retry` re-enters `try(msg, "retry")` on the same
instance; otherwise `worker.downInstance` fires.  The loop for a callback
that fails every attempt is embedded as the event trace it produces.
-/

/-- Observable events of one Job instance handling one message. -/
inductive JobEvent where
  | downMessage : String → JobEvent
  | callbackInvoked : Nat → JobEvent
  | queueFail : JobEvent
  | retryScheduled : JobEvent
  | downInstance : JobEvent
  deriving Repr, DecidableEq

/-- One `try` call and its continuations for an in-process callback that
always throws, recorded as events.  `tried` is the counter value before
the call and `mode` the `type` argument; the branch condition
`#tried < retry + 1` is the source's.  Structural recursion on a fuel
argument (one unit per attempt); `jobFailingTrace` supplies `retry + 1`
units, exactly the number of attempts. -/
def runFailingFuel : Nat → Nat → Nat → String → List JobEvent
  | 0, _, _, _ => []
  | fuel + 1, retry, tried, mode =>
    let tried1 := tried + 1
    [.downMessage mode, .callbackInvoked tried1, .queueFail] ++
      (if tried1 < retry + 1 then .retryScheduled :: runFailingFuel fuel retry tried1 "retry"
       else [.downInstance])

/-- Event trace of a Job instance with retry budget `retry` whose callback
fails on every attempt, starting from `#tried = 0` with the initial call
`try(message)` (mode `"try"`). -/
def jobFailingTrace (retry : Nat) : List JobEvent :=
  runFailingFuel (retry + 1) retry 0 "try"

/-- Recognizer for callback-invocation events. -/
def isCallbackInvoked : JobEvent → Bool
  | .callbackInvoked _ => true
  | _ => false

/-- Recognizer for `downMessage` notifications. -/
def isDownMessage : JobEvent → Bool
  | .downMessage _ => true
  | _ => false

/-- The `#tried` value of a callback invocation event, if any. -/
def triedOf : JobEvent → Option Nat
  | .callbackInvoked t => some t
  | _ => none

/-- Recognizer for scheduled-retry events. -/
def isRetryScheduled : JobEvent → Bool
  | .retryScheduled => true
  | _ => false

/-- Recognizer for `downMessage` notifications issued by a `"retry"`-mode
attempt. -/
def isDownMessageRetry : JobEvent → Bool
  | .downMessage m => m == "retry"
  | _ => false

/-! ## Reachable queue states and the pipeline/fails invariant -/

/-- States of a queue's collections reachable through the public API.
Every message id minted by `addMessage` is a fresh UUID, expressed by the
freshness hypotheses of the `add` step.  `setup` restores `pipeline` and
`fails` from the metadata snapshot, and every snapshot is written from
the collections of a reachable state, so the restored state is itself a
reachable state's collections. -/
inductive QueueReachable : QState → Prop where
  | init : QueueReachable ⟨[], []⟩
  | add (opts : QueueOptions) (qid : String) (md5 enc dec : String → String)
      (st : QState) (v : JsVal) (now : Nat) (freshId : String)
      (h : QueueReachable st)
      (hfp : ∀ m ∈ st.pipeline, m.id ≠ freshId)
      (hff : ∀ m ∈ st.fails, m.id ≠ freshId) :
      QueueReachable (qAddMessage opts qid md5 enc dec st v now freshId).state
  | fail (st : QState) (messageId : String) (now : Nat) (h : QueueReachable st) :
      QueueReachable (qFail st messageId now).1
  | getFail (st : QState) (messageId : String) (h : QueueReachable st) :
      QueueReachable (qGetFail st messageId).1
  | timer (st : QState) (key : String) (h : QueueReachable st) :
      QueueReachable (qTimerFire st key)
  | setup (snap : QState) (h : QueueReachable snap) :
      QueueReachable ⟨snap.pipeline, snap.fails⟩

/-- No message id occurs in both collections. -/
def PipelineFailsDisjoint (st : QState) : Prop :=
  ∀ m ∈ st.pipeline, ∀ m1 ∈ st.fails, m.id ≠ m1.id

/-- Selection rule in the words of the amended dispatch claim: the
eligible job with the smallest `workingMessage.length`, where ties go to
the job occurring last in registration order.  Written from the amended
claim, to be compared with `chooseJob`, the reduce of the source. -/
def lastMinSpec : List JobReg → Option JobReg
  | [] => none
  | j :: rest =>
    match lastMinSpec rest with
    | none => some j
    | some r =>
      some (if j.workingMessage.length < r.workingMessage.length then j else r)

/-- Ascending `createdAt` ordering of a message list. -/
def SortedByCreatedAt (l : List Message) : Prop :=
  l.Pairwise (fun a b => a.createdAt ≤ b.createdAt)

/-! ## Concrete instances used by witnesses and counterexamples -/

/-- Concrete queue options used by witnesses: no cap, no expiry, plaintext
payloads (the dispatcher's `queueConfig` defaults). -/
def optsPlain : QueueOptions :=
  { size := 2048, expire := 0, limit := 0, secretKey := "", updateMetaTime := 3000,
    rebroadcastTime := 2000, log := false }

/-- Queue options of the size-overflow scenario (`options.size = 5`). -/
def optsSmall : QueueOptions := { optsPlain with size := 5 }

/-- Queue options with a secret key configured. -/
def optsSecret : QueueOptions := { optsPlain with secretKey := "s3cret" }

/-- A concrete pipelined message for witnesses. -/
def mA : Message :=
  { id := "a", size := 1, path := "p", createdAt := 3, failedAt := none,
    failedCount := 0, type := "string" }

/-- Job options of `configs/job`: the defaults merged into every
`createJob` call. -/
def jobOptionDefault : JobOptions :=
  { retry := 0, timeout := 60000, retryAfter := 30000, maxListeners := 100,
    concurrency := 20, workingMessageCount := 100, log := false }

/-- Worker options default.  The file `configs/worker` is absent from the
sources; modelled from the spec: `priority` defaults to 1,
`intervalRunJob` to 2000 ms, `log` to false. -/
def workerOptionDefault : WorkerOptions :=
  { log := false, priority := 1, intervalRunJob := 2000 }

/-- First registered job of the tie-break scenario: empty buffer, bound to
queue `q1`. -/
def jobA : JobReg :=
  { name := "A", queueId := "q1", workingMessageCount := 1, concurrency := 1,
    workingMessage := [] }

/-- Second registered job of the tie-break scenario: identical load. -/
def jobB : JobReg :=
  { name := "B", queueId := "q1", workingMessageCount := 1, concurrency := 1,
    workingMessage := [] }

/-- Worker observing `q1` with the two tied jobs registered in order. -/
def wAB : WorkerState :=
  { jobs := [jobA, jobB], observerQueue := [("q1", true)] }

/-- A concrete envelope routed to `q1`. -/
def envX : Envelope := { msg := mA, queueId := "q1", value := "hi" }

/-- Options of a worker created with `priority` 1. -/
def wo1 : WorkerOptions := { workerOptionDefault with priority := 1 }

/-- Options of a worker created with `priority` 5. -/
def wo5 : WorkerOptions := { workerOptionDefault with priority := 5 }

/-- Worker registry after `createWorker("w1", {priority: 1})`. -/
def ws1 : List WorkerObj := [⟨"w1", wo1⟩]

/-- Worker registry after additionally `createWorker("w2", {priority: 5})`:
insertion order, not priority order. -/
def ws2 : List WorkerObj := [⟨"w1", wo1⟩, ⟨"w2", wo5⟩]

/-! ## Lemmas: the stable `createdAt` sort -/

theorem perm_insertByCreatedAt (a : Message) (l : List Message) :
    (insertByCreatedAt a l).Perm (a :: l) := by
  induction l with
  | nil => simp [insertByCreatedAt]
  | cons b l ih =>
    simp only [insertByCreatedAt]
    split
    · exact List.Perm.refl _
    · exact (ih.cons b).trans (List.Perm.swap a b l)

theorem perm_sortByCreatedAt (l : List Message) : (sortByCreatedAt l).Perm l := by
  induction l with
  | nil => simp [sortByCreatedAt]
  | cons a l ih =>
    exact (perm_insertByCreatedAt a (sortByCreatedAt l)).trans (ih.cons a)

theorem mem_sortByCreatedAt {m : Message} {l : List Message} :
    m ∈ sortByCreatedAt l ↔ m ∈ l :=
  (perm_sortByCreatedAt l).mem_iff

theorem sortedByCreatedAt_insert {a : Message} {l : List Message}
    (h : SortedByCreatedAt l) : SortedByCreatedAt (insertByCreatedAt a l) := by
  induction l with
  | nil => simp [insertByCreatedAt, SortedByCreatedAt]
  | cons b l ih =>
    rw [SortedByCreatedAt, List.pairwise_cons] at h
    obtain ⟨hb, hl⟩ := h
    simp only [insertByCreatedAt]
    split
    · rename_i hab
      rw [SortedByCreatedAt, List.pairwise_cons]
      refine ⟨?_, ?_⟩
      · intro x hx
        rcases List.mem_cons.mp hx with rfl | hx
        · exact hab
        · exact le_trans hab (hb x hx)
      · rw [SortedByCreatedAt] at *
        exact List.pairwise_cons.mpr ⟨hb, hl⟩
    · rename_i hab
      rw [SortedByCreatedAt, List.pairwise_cons]
      refine ⟨?_, ih hl⟩
      intro x hx
      rcases List.mem_cons.mp ((perm_insertByCreatedAt a l).mem_iff.mp hx) with rfl | h1
      · omega
      · exact hb x h1

theorem sortedByCreatedAt_sort (l : List Message) :
    SortedByCreatedAt (sortByCreatedAt l) := by
  induction l with
  | nil => simp [sortByCreatedAt, SortedByCreatedAt]
  | cons a l ih => exact sortedByCreatedAt_insert ih

/-! ## C8: pipeline and fails never share a message id -/

/-- C8.  In every Queue state reachable through the public API
(`addMessage`, `fail`, `getFail`, `done`/expiration timer firings,
`setup` restore), no message id appears in both the pipeline and the
fails list. -/
theorem queue_pipeline_fails_disjoint (st : QState) (h : QueueReachable st) :
    PipelineFailsDisjoint st := by
  induction h with
  | init =>
    intro m hm
    simp at hm
  | add opts qid md5 enc dec st v now freshId h hfp hff ih =>
    simp only [qAddMessage]
    split_ifs with h1 h2 h3
    · exact ih
    · exact ih
    · exact ih
    · intro m hm m1 hm1
      rcases List.mem_append.mp (mem_sortByCreatedAt.mp hm) with hmem | hmem
      · exact ih m hmem m1 hm1
      · rcases List.mem_singleton.mp hmem with rfl
        exact fun he => hff m1 hm1 he.symm
  | fail st messageId now h ih =>
    simp only [qFail]
    split
    · exact ih
    · split
      · rename_i hfail hfind
        intro x hx y hy
        have hx1 := List.mem_filter.mp hx
        have hxid : x.id ≠ messageId := by
          have := hx1.2
          simpa using this
        rcases List.mem_append.mp (mem_sortByCreatedAt.mp hy) with hmem | hmem
        · exact ih x hx1.1 y hmem
        · rcases List.mem_singleton.mp hmem with rfl
          have hmid : hfail.id = messageId := by
            have hbeq := List.find?_some hfind
            simpa using hbeq
          simpa [hmid] using hxid
      · intro x hx y hy
        exact ih x (List.mem_of_mem_filter hx) y hy
  | getFail st messageId h ih =>
    simp only [qGetFail]
    split
    · exact ih
    · intro x hx y hy
      exact ih x hx y (List.mem_of_mem_filter hy)
  | timer st key h ih =>
    simp only [qTimerFire]
    split
    · intro x hx y hy
      exact ih x (List.mem_of_mem_filter hx) y hy
    · split
      · intro x hx y hy
        exact ih x hx y (List.mem_of_mem_filter hy)
      · exact ih
  | setup snap h ih => exact ih

/-- Witness for C8: the invariant holds at the concrete reachable state
obtained by enqueueing one message and then failing it. -/
theorem queue_pipeline_fails_disjoint_witness :
    PipelineFailsDisjoint
      ((qFail (qAddMessage optsPlain "q" id id id ⟨[], []⟩ (JsVal.vstr "hi") 5 "m1").state
        "m1" 9).1) :=
  queue_pipeline_fails_disjoint _
    (QueueReachable.fail _ _ _
      (QueueReachable.add optsPlain "q" id id id ⟨[], []⟩ (JsVal.vstr "hi") 5 "m1"
        QueueReachable.init (by simp) (by simp)))

/-! ## C7: `Queue.fail` case analysis -/

/-- C7.  `Queue.fail` is total (the embedding returns on every path and
the source calls no throwing helper): an id already in `fails` returns
that record with the state unchanged; an id in the pipeline is removed
from it, gets `failedAt := now` and an incremented `failedCount`, and is
inserted into `fails` preserving `createdAt` order (the new `fails` is a
permutation of the old plus the record, sorted by `createdAt`); an
unknown id leaves the state unchanged and returns nothing
(`undefined`/`null` are both `none` in the embedding). -/
theorem qFail_case_analysis (st : QState) (messageId : String) (now : Nat) :
    (∀ m, st.fails.find? (fun x => x.id == messageId) = some m →
      qFail st messageId now = (st, some m))
    ∧ (st.fails.find? (fun x => x.id == messageId) = none →
       ∀ m, st.pipeline.find? (fun x => x.id == messageId) = some m →
        (qFail st messageId now).1.pipeline = st.pipeline.filter (fun x => x.id != messageId)
        ∧ (qFail st messageId now).2 =
            some { m with failedAt := some now, failedCount := m.failedCount + 1 }
        ∧ ((qFail st messageId now).1.fails).Perm
            (st.fails ++ [{ m with failedAt := some now, failedCount := m.failedCount + 1 }])
        ∧ SortedByCreatedAt ((qFail st messageId now).1.fails))
    ∧ (st.fails.find? (fun x => x.id == messageId) = none →
       st.pipeline.find? (fun x => x.id == messageId) = none →
        qFail st messageId now = (st, none)) := by
  refine ⟨?_, ?_, ?_⟩
  · intro m hm
    simp [qFail, hm]
  · intro hnone m hm
    simp only [qFail, hnone, hm]
    exact ⟨trivial, trivial, perm_sortByCreatedAt _, sortedByCreatedAt_sort _⟩
  · intro h1 h2
    simp only [qFail, h1, h2]
    have hfix : st.pipeline.filter (fun x => x.id != messageId) = st.pipeline := by
      apply List.filter_eq_self.mpr
      intro a ha
      have hne := List.find?_eq_none.mp h2 a ha
      simpa using hne
    rw [hfix]

/-- Witness for C7: failing the only pipelined message moves it to `fails`
with the failure metadata set. -/
theorem qFail_case_analysis_witness :
    (qFail ⟨[mA], []⟩ "a" 7).1.pipeline = List.filter (fun x => x.id != "a") [mA]
    ∧ (qFail ⟨[mA], []⟩ "a" 7).2 =
        some { mA with failedAt := some 7, failedCount := mA.failedCount + 1 }
    ∧ ((qFail ⟨[mA], []⟩ "a" 7).1.fails).Perm
        ([] ++ [{ mA with failedAt := some 7, failedCount := mA.failedCount + 1 }])
    ∧ SortedByCreatedAt ((qFail ⟨[mA], []⟩ "a" 7).1.fails) :=
  (qFail_case_analysis ⟨[mA], []⟩ "a" 7).2.1 (by rfl) mA (by rfl)

/-! ## C6: `addMessage` size overflow has no effects -/

/-- C6.  When the serialized value is larger than `options.size`, the
`addMessage` call fails through the error channel (here: whichever
validation error fires first, always before any effect), the pipeline is
unchanged, no payload file is written, and nothing is broadcast. -/
theorem addMessage_size_overflow (opts : QueueOptions) (qid : String)
    (md5 enc dec : String → String) (st : QState) (v : JsVal) (now : Nat) (freshId : String)
    (h : utf8Length (formatMessage v) > opts.size) :
    (qAddMessage opts qid md5 enc dec st v now freshId).state = st
    ∧ (qAddMessage opts qid md5 enc dec st v now freshId).written = none
    ∧ (qAddMessage opts qid md5 enc dec st v now freshId).broadcast = none
    ∧ ((qAddMessage opts qid md5 enc dec st v now freshId).err).isSome := by
  simp only [qAddMessage]
  split_ifs with h1 h2
  · exact ⟨rfl, rfl, rfl, rfl⟩
  · exact ⟨rfl, rfl, rfl, rfl⟩
  · exact ⟨rfl, rfl, rfl, rfl⟩

/-- Witness for C6: scenario 2 of the spec, `AddMessage("Hello, World!")`
against `size = 5`. -/
theorem addMessage_size_overflow_witness :
    (qAddMessage optsSmall "q" id id id ⟨[], []⟩ (JsVal.vstr "Hello, World!") 5 "m1").state
        = ⟨[], []⟩
    ∧ (qAddMessage optsSmall "q" id id id ⟨[], []⟩ (JsVal.vstr "Hello, World!") 5 "m1").written
        = none
    ∧ (qAddMessage optsSmall "q" id id id ⟨[], []⟩ (JsVal.vstr "Hello, World!") 5 "m1").broadcast
        = none
    ∧ ((qAddMessage optsSmall "q" id id id ⟨[], []⟩ (JsVal.vstr "Hello, World!") 5 "m1").err).isSome :=
  addMessage_size_overflow optsSmall "q" id id id ⟨[], []⟩ (JsVal.vstr "Hello, World!") 5 "m1"
    (by decide)

/-! ## C10: `createJob` never resets an existing observer entry -/

theorem mapGet_mapSet_self (m : List (String × Bool)) (k : String) (v : Bool) :
    mapGet (mapSet m k v) k = some v := by
  induction m with
  | nil => simp [mapSet, mapGet]
  | cons p rest ih =>
    simp only [mapSet]
    by_cases hb : (p.1 == k) = true
    · simp [hb, mapGet]
    · rw [Bool.not_eq_true] at hb
      simp only [hb, if_false, Bool.false_eq_true]
      simp only [mapGet, List.find?] at ih ⊢
      rw [hb]
      exact ih

/-- C10.  A successful `createJob` leaves an existing `#observerQueue`
entry for the bound queue untouched — in particular a paused (`false`)
entry stays `false` — and initializes only an absent entry to `true`. -/
theorem createJob_preserves_observer (w : WorkerState) (name queueId : String)
    (opts : JobOptions) (w1 : WorkerState)
    (hok : createJob w name queueId opts = .ok w1) :
    (∀ b, mapGet w.observerQueue queueId = some b →
      mapGet w1.observerQueue queueId = some b)
    ∧ (mapGet w.observerQueue queueId = none →
      mapGet w1.observerQueue queueId = some true) := by
  simp only [createJob] at hok
  split_ifs at hok with hdup hsome
  all_goals cases hok
  all_goals refine ⟨fun b hb => ?_, fun hb => ?_⟩
  all_goals
    first
    | simpa using hb
    | simpa using mapGet_mapSet_self w.observerQueue queueId true
    | (rw [hb] at hsome; simp at hsome)

/-- Witness for C10: registering a job on a queue whose observer is
paused (`false`) leaves it paused. -/
theorem createJob_preserves_observer_witness :
    mapGet
      (WorkerState.observerQueue
        { jobs := [{ name := "j", queueId := "q", workingMessageCount := 100,
                     concurrency := 20, workingMessage := [] }],
          observerQueue := [("q", false)] }) "q" = some false :=
  (createJob_preserves_observer ⟨[], [("q", false)]⟩ "j" "q" jobOptionDefault
    { jobs := [{ name := "j", queueId := "q", workingMessageCount := 100,
                 concurrency := 20, workingMessage := [] }],
      observerQueue := [("q", false)] } (by rfl)).1 false (by rfl)

/-! ## C1: the dispatch selection of `Worker.run` -/

theorem pickJob_assoc (a b c : JobReg) :
    pickJob (pickJob a b) c = pickJob a (pickJob b c) := by
  simp only [pickJob]
  split_ifs <;> first | rfl | omega

theorem foldl_pickJob_eq (l : List JobReg) :
    ∀ a, l.foldl pickJob a =
      (match lastMinSpec l with
       | none => a
       | some r => pickJob a r) := by
  induction l with
  | nil => intro a; rfl
  | cons x xs ih =>
    intro a
    simp only [List.foldl, lastMinSpec]
    rw [ih (pickJob a x)]
    cases hxs : lastMinSpec xs with
    | none => rfl
    | some r =>
      simp only
      rw [pickJob_assoc]
      rfl

theorem chooseJob_eq_lastMinSpec (l : List JobReg) : chooseJob l = lastMinSpec l := by
  cases l with
  | nil => rfl
  | cons j rest =>
    simp only [chooseJob, lastMinSpec]
    rw [foldl_pickJob_eq]
    cases hr : lastMinSpec rest with
    | none => rfl
    | some r => rfl

theorem lastMinSpec_eq_none {l : List JobReg} (h : lastMinSpec l = none) : l = [] := by
  cases l with
  | nil => rfl
  | cons y ys =>
    simp only [lastMinSpec] at h
    cases hys : lastMinSpec ys <;> rw [hys] at h <;> simp at h

theorem lastMinSpec_mem {l : List JobReg} {r : JobReg} (h : lastMinSpec l = some r) :
    r ∈ l := by
  induction l with
  | nil => cases h
  | cons j rest ih =>
    simp only [lastMinSpec] at h
    cases hr : lastMinSpec rest with
    | none =>
      rw [hr] at h
      cases h
      exact List.mem_cons_self _ _
    | some r0 =>
      rw [hr] at h
      simp only [Option.some_inj] at h
      by_cases hc : r0.workingMessage.length > j.workingMessage.length
      · rw [if_pos hc] at h
        cases h
        exact List.mem_cons_self _ _
      · rw [if_neg hc] at h
        cases h
        exact List.mem_cons_of_mem _ (ih hr)

theorem lastMinSpec_min {l : List JobReg} :
    ∀ {r : JobReg}, lastMinSpec l = some r →
      ∀ x ∈ l, r.workingMessage.length ≤ x.workingMessage.length := by
  induction l with
  | nil => intro r h; cases h
  | cons j rest ih =>
    intro r h
    simp only [lastMinSpec] at h
    cases hr : lastMinSpec rest with
    | none =>
      rw [hr] at h
      cases h
      intro x hx
      rcases List.mem_cons.mp hx with rfl | hx
      · exact le_refl _
      · rw [lastMinSpec_eq_none hr] at hx
        cases hx
    | some r0 =>
      rw [hr] at h
      simp only [Option.some_inj] at h
      intro x hx
      rcases List.mem_cons.mp hx with rfl | hx
      · by_cases hc : r0.workingMessage.length > x.workingMessage.length
        · rw [if_pos hc] at h
          cases h
          exact le_refl _
        · rw [if_neg hc] at h
          cases h
          omega
      · by_cases hc : r0.workingMessage.length > j.workingMessage.length
        · rw [if_pos hc] at h
          cases h
          exact le_trans (by omega) (ih hr x hx)
        · rw [if_neg hc] at h
          cases h
          exact ih hr x hx

/-- C1 counterexample.  Two jobs `A` then `B` are registered on queue `q1`
with equal (empty) `workingMessage` buffers; both are eligible and tie for
the minimum, yet `Worker.run` appends the envelope to `B`, the job
occurring last in registration order, not to the first match `A` as the
claim states. -/
theorem run_tiebreak_counterexample :
    jobA.workingMessage.length = jobB.workingMessage.length
    ∧ validJobsFor wAB "q1" = [jobA, jobB]
    ∧ (workerRunSelect wAB "q1" envX).2 = some "B"
    ∧ jobA.name = "A" :=
  ⟨rfl, rfl, rfl, rfl⟩

/-- C1 (amended).  When at least one Job bound to the queue still has
buffer room, `Worker.run` appends the envelope to the eligible Job with
the smallest `workingMessage.length`, and ties are broken in favour of
the job occurring last in registration order (`lastMinSpec`), not
first. -/
theorem run_dispatch_selection (w : WorkerState) (queueId : String) (env : Envelope)
    (h : validJobsFor w queueId ≠ []) :
    ∃ cj, lastMinSpec (validJobsFor w queueId) = some cj
      ∧ cj ∈ validJobsFor w queueId
      ∧ (∀ x ∈ validJobsFor w queueId,
          cj.workingMessage.length ≤ x.workingMessage.length)
      ∧ workerRunSelect w queueId env =
          ({ w with jobs := pushToJob cj.name env w.jobs }, some cj.name) := by
  cases hc : chooseJob (validJobsFor w queueId) with
  | none =>
    rw [chooseJob_eq_lastMinSpec] at hc
    exact absurd (lastMinSpec_eq_none hc) h
  | some cj =>
    have hspec : lastMinSpec (validJobsFor w queueId) = some cj := by
      rw [← chooseJob_eq_lastMinSpec]
      exact hc
    refine ⟨cj, hspec, lastMinSpec_mem hspec, lastMinSpec_min hspec, ?_⟩
    simp [workerRunSelect, hc]

/-- Witness for the amended C1 theorem at the concrete tie scenario. -/
theorem run_dispatch_selection_witness :
    ∃ cj, lastMinSpec (validJobsFor wAB "q1") = some cj
      ∧ cj ∈ validJobsFor wAB "q1"
      ∧ (∀ x ∈ validJobsFor wAB "q1",
          cj.workingMessage.length ≤ x.workingMessage.length)
      ∧ workerRunSelect wAB "q1" envX =
          ({ wAB with jobs := pushToJob cj.name envX wAB.jobs }, some cj.name) :=
  run_dispatch_selection wAB "q1" envX (by decide)

/-! ## C2: `createWorker` does not order workers by priority -/

theorem workerCompare_eq_zero (a b : WorkerObj) : workerCompare a b = 0 := rfl

theorem stableInsertCmp_workerCompare (a : WorkerObj) (l : List WorkerObj) :
    stableInsertCmp workerCompare a l = a :: l := by
  cases l with
  | nil => rfl
  | cons b l => simp [stableInsertCmp, workerCompare, priorityProp]

theorem stableSortCmp_workerCompare (l : List WorkerObj) :
    stableSortCmp workerCompare l = l := by
  induction l with
  | nil => rfl
  | cons a l ih =>
    simp only [stableSortCmp, ih]
    exact stableInsertCmp_workerCompare a l

/-- C2 (code-bug evaluation).  Creating `w1` with priority 1 and then `w2`
with priority 5 leaves the registry in insertion order `[w1, w2]`
(priorities `[1, 5]`), not in the descending priority order `[5, 1]` the
claim states: the sort comparator reads `worker.priority`, a property the
`Worker` constructor never defines (`priority` lives in the private
`#options` bag), so every comparison is `undefined - undefined = NaN`,
which `Array.prototype.sort` treats as `+0`, and the stable sort keeps
insertion order. -/
theorem createWorker_priority_bug :
    createWorker [] "w1" wo1 = .ok ws1
    ∧ createWorker ws1 "w2" wo5 = .ok ws2
    ∧ ws2.map (fun w => w.options.priority) = [1, 5]
    ∧ ws2.map (fun w => w.options.priority) ≠ [5, 1] := by
  refine ⟨?_, ?_, by decide, by decide⟩
  · simp [createWorker, ws1, stableSortCmp_workerCompare]
  · simp [createWorker, ws1, ws2, stableSortCmp_workerCompare, wo1, wo5]

/-! ## C3 and C5: the Job retry loop -/

theorem runFailingFuel_succ (fuel retry tried : Nat) (mode : String) :
    runFailingFuel (fuel + 1) retry tried mode =
      [.downMessage mode, .callbackInvoked (tried + 1), .queueFail] ++
        (if tried + 1 < retry + 1 then
          .retryScheduled :: runFailingFuel fuel retry (tried + 1) "retry"
         else [.downInstance]) := rfl

theorem runFailingFuel_spec (k : Nat) :
    ∀ (tried : Nat) (mode : String),
      ((runFailingFuel (k + 1) (tried + k) tried mode).countP isCallbackInvoked = k + 1)
      ∧ ((runFailingFuel (k + 1) (tried + k) tried mode).filterMap triedOf
          = List.range' (tried + 1) (k + 1))
      ∧ ((runFailingFuel (k + 1) (tried + k) tried mode).countP isRetryScheduled = k)
      ∧ ((runFailingFuel (k + 1) (tried + k) tried mode).countP isDownMessage = k + 1)
      ∧ ((runFailingFuel (k + 1) (tried + k) tried mode).countP isDownMessageRetry
          = (if mode == "retry" then 1 else 0) + k) := by
  induction k with
  | zero =>
    intro tried mode
    rw [Nat.add_zero, runFailingFuel_succ, if_neg (by omega)]
    refine ⟨?_, ?_, ?_, ?_, ?_⟩ <;>
      simp [List.countP_cons, isCallbackInvoked, isRetryScheduled, isDownMessage,
        isDownMessageRetry, triedOf, List.range'_one]
  | succ k ih =>
    intro tried mode
    rw [show tried + (k + 1) = tried + 1 + k from by omega]
    rw [runFailingFuel_succ, if_pos (by omega)]
    obtain ⟨i1, i2, i3, i4, i5⟩ := ih (tried + 1) "retry"
    refine ⟨?_, ?_, ?_, ?_, ?_⟩ <;>
      (simp [List.countP_cons, List.countP_append, List.filterMap_append,
        isCallbackInvoked, isRetryScheduled, isDownMessage, isDownMessageRetry,
        triedOf, i1, i2, i3, i4, i5, List.range'_succ]
       try omega)

/-- C5.  A Job instance with retry budget `r` whose callback fails on
every attempt invokes the callback exactly `r + 1` times; the successive
attempts carry the `#tried` values `1, …, r + 1` (each attempt increments
the counter); and exactly `r` retries are scheduled, none of them after
`#tried` reaches `r + 1`. -/
theorem job_retry_budget (r : Nat) :
    ((jobFailingTrace r).countP isCallbackInvoked = r + 1)
    ∧ ((jobFailingTrace r).filterMap triedOf = List.range' 1 (r + 1))
    ∧ ((jobFailingTrace r).countP isRetryScheduled = r) := by
  obtain ⟨i1, i2, i3, i4, i5⟩ := runFailingFuel_spec r 0 "try"
  rw [Nat.zero_add] at i1 i2 i3
  rw [Nat.zero_add] at i2
  exact ⟨i1, i2, i3⟩

/-- C3 counterexample.  With retry budget 1 and a failing callback, the
retry attempt (mode `"retry"`) does notify `Worker.downMessage` again:
the trace of the run contains a `downMessage` event issued by a
`"retry"`-mode call of `Job.try`. -/
theorem retry_renotifies_downMessage_counterexample :
    JobEvent.downMessage "retry" ∈ jobFailingTrace 1 := by decide

/-- C3 (amended).  `Job.try` notifies `Worker.downMessage`
unconditionally, so every attempt of a failing run — the first (mode
`"try"`) and each of the `r` retries (mode `"retry"`), all on the same
Job instance — re-notifies `downMessage`: the trace carries `r + 1`
`downMessage` events, `r` of them from `"retry"`-mode attempts. -/
theorem downMessage_on_every_attempt (r : Nat) :
    ((jobFailingTrace r).countP isDownMessage = r + 1)
    ∧ ((jobFailingTrace r).countP isDownMessageRetry = r) := by
  obtain ⟨i1, i2, i3, i4, i5⟩ := runFailingFuel_spec r 0 "try"
  rw [Nat.zero_add] at i4 i5
  refine ⟨i4, ?_⟩
  simp only [jobFailingTrace]
  rw [i5]
  simp

/-! ## C4: the key derivation of `Queue.#padKey` -/

theorem utf8CharBytes_ascii {c : Char} (h : c.toNat < 128) :
    utf8CharBytes c = [c.toNat] := by
  simp [utf8CharBytes, h]

theorem utf8Bytes_ascii_list (l : List Char) (h : ∀ c ∈ l, c.toNat < 128) :
    (l.map utf8CharBytes).flatten = l.map Char.toNat := by
  induction l with
  | nil => rfl
  | cons c l ih =>
    simp only [List.map_cons, List.flatten_cons,
      utf8CharBytes_ascii (h c (List.mem_cons_self c l))]
    rw [ih (fun x hx => h x (List.mem_cons_of_mem c hx))]
    rfl

/-- C4 counterexample.  For the key `"k"` the derived key bytes are `0x6B`
followed by 31 copies of `0x30` (the character `'0'`), not 31 NUL (`0x00`)
bytes as the claim states. -/
theorem padKey_nul_counterexample :
    utf8Bytes (padKey "k") ≠ utf8Bytes "k" ++ List.replicate 31 0 := by decide

/-- C4 (amended).  For every non-empty ASCII `secretKey`, the AES-256-ECB
key equals the UTF-8 bytes of the key right-padded with the ASCII
character `'0'` (0x30) — not NUL — to exactly 32 bytes when shorter, or
truncated to the first 32 bytes when longer; the result is always exactly
32 bytes. -/
theorem padKey_derivation (key : String) (_hne : key ≠ "")
    (hascii : ∀ c ∈ key.data, c.toNat < 128) :
    (utf8Bytes (padKey key) =
      if key.length ≤ 32 then utf8Bytes key ++ List.replicate (32 - key.length) 48
      else (utf8Bytes key).take 32)
    ∧ (utf8Bytes (padKey key)).length = 32 := by
  have hlen : key.length = key.data.length := rfl
  have hkey : utf8Bytes key = key.data.map Char.toNat := utf8Bytes_ascii_list key.data hascii
  by_cases hgt : key.length > 32
  · -- key longer than 32: truncation
    simp only [padKey]
    rw [if_pos hgt, if_neg (show ¬key.length ≤ 32 by omega)]
    have htake : ∀ c ∈ key.data.take 32, c.toNat < 128 :=
      fun c hc => hascii c (List.mem_of_mem_take hc)
    have hmk : utf8Bytes (String.mk (key.data.take 32))
        = (key.data.take 32).map Char.toNat :=
      utf8Bytes_ascii_list (key.data.take 32) htake
    constructor
    · rw [hmk, hkey, List.map_take]
    · rw [hmk, List.length_map, List.length_take]
      omega
  · -- key at most 32 characters: padding with the character '0'
    simp only [padKey]
    rw [if_neg hgt, if_pos (show key.length ≤ 32 by omega)]
    have hpad : ∀ c ∈ key.data ++ List.replicate (32 - key.length) (Char.ofNat 48),
        c.toNat < 128 := by
      intro c hc
      rcases List.mem_append.mp hc with hc | hc
      · exact hascii c hc
      · rw [List.eq_of_mem_replicate hc]
        decide
    have hmk : utf8Bytes (String.mk (key.data ++ List.replicate (32 - key.length) (Char.ofNat 48)))
        = (key.data ++ List.replicate (32 - key.length) (Char.ofNat 48)).map Char.toNat :=
      utf8Bytes_ascii_list _ hpad
    constructor
    · rw [hmk, List.map_append, hkey, List.map_replicate]
      rfl
    · rw [hmk, List.length_map, List.length_append, List.length_replicate]
      omega

/-- Witness for the amended C4 theorem at the concrete key `"k"`. -/
theorem padKey_derivation_witness :
    (utf8Bytes (padKey "k") =
      if String.length "k" ≤ 32 then
        utf8Bytes "k" ++ List.replicate (32 - String.length "k") 48
      else (utf8Bytes "k").take 32)
    ∧ (utf8Bytes (padKey "k")).length = 32 :=
  padKey_derivation "k" (by decide) (by decide)

/-! ## C9: encrypt-then-decrypt round trip

The AES-256 block permutation enters as the parameters `E` (encrypt) and
`D` (decrypt), required only to be mutually inverse byte-preserving maps
on 16-byte blocks — the interface the queue relies on.  The remaining
layers (UTF-8, PKCS#7, ECB chunking, hex) are proved to invert each
other.
-/

theorem char_toNat_lt (c : Char) : c.toNat < 0x110000 := by
  have hvalid := c.valid
  show c.val.toNat < 0x110000
  rcases hvalid with h | ⟨h1, h2⟩
  · omega
  · omega

theorem utf8CharBytes_lt_256 (c : Char) : ∀ b ∈ utf8CharBytes c, b < 256 := by
  have hv := char_toNat_lt c
  intro b hb
  simp only [utf8CharBytes] at hb
  split_ifs at hb <;> simp at hb <;> omega

theorem utf8Bytes_lt_256 (s : String) : ∀ b ∈ utf8Bytes s, b < 256 := by
  intro b hb
  simp only [utf8Bytes] at hb
  rcases List.mem_flatten.mp hb with ⟨bs, hbs, hbmem⟩
  rcases List.mem_map.mp hbs with ⟨c, _, rfl⟩
  exact utf8CharBytes_lt_256 c b hbmem

theorem utf8CharBytes_length_pos (c : Char) : 0 < (utf8CharBytes c).length := by
  simp only [utf8CharBytes]
  split_ifs <;> simp

theorem utf8DecodeFuel_append (c : Char) (rest : List Nat) (fuel : Nat) :
    utf8DecodeFuel (fuel + 1) (utf8CharBytes c ++ rest) =
      (utf8DecodeFuel fuel rest).map (fun cs => c :: cs) := by
  have hv := char_toNat_lt c
  by_cases h1 : c.toNat < 0x80
  · simp only [utf8CharBytes, if_pos h1, List.cons_append, List.nil_append]
    conv_lhs => rw [utf8DecodeFuel]
    rw [if_pos h1, Char.ofNat_toNat]
  · by_cases h2 : c.toNat < 0x800
    · simp only [utf8CharBytes, if_neg h1, if_pos h2, List.cons_append, List.nil_append]
      conv_lhs => rw [utf8DecodeFuel]
      rw [if_neg (by omega), if_neg (by omega), if_pos (by omega)]
      conv_lhs => rw [utf8TakeCont]
      rw [if_pos (by omega)]
      simp only [Option.bind]
      have harg : (0xC0 + c.toNat / 0x40 - 0xC0) * 0x40 + (0x80 + c.toNat % 0x40 - 0x80)
          = c.toNat := by omega
      rw [harg, Char.ofNat_toNat]
    · by_cases h3 : c.toNat < 0x10000
      · simp only [utf8CharBytes, if_neg h1, if_neg h2, if_pos h3, List.cons_append,
          List.nil_append]
        conv_lhs => rw [utf8DecodeFuel]
        rw [if_neg (by omega), if_neg (by omega), if_neg (by omega), if_pos (by omega)]
        conv_lhs => rw [utf8TakeCont]
        rw [if_pos (by omega)]
        simp only [Option.bind]
        conv_lhs => rw [utf8TakeCont]
        rw [if_pos (by omega)]
        simp only [Option.bind]
        have harg : (0xE0 + c.toNat / 0x1000 - 0xE0) * 0x1000
            + (0x80 + c.toNat / 0x40 % 0x40 - 0x80) * 0x40
            + (0x80 + c.toNat % 0x40 - 0x80) = c.toNat := by omega
        rw [harg, Char.ofNat_toNat]
      · simp only [utf8CharBytes, if_neg h1, if_neg h2, if_neg h3, List.cons_append,
          List.nil_append]
        conv_lhs => rw [utf8DecodeFuel]
        rw [if_neg (by omega), if_neg (by omega), if_neg (by omega), if_neg (by omega),
          if_pos (by omega)]
        conv_lhs => rw [utf8TakeCont]
        rw [if_pos (by omega)]
        simp only [Option.bind]
        conv_lhs => rw [utf8TakeCont]
        rw [if_pos (by omega)]
        simp only [Option.bind]
        conv_lhs => rw [utf8TakeCont]
        rw [if_pos (by omega)]
        simp only [Option.bind]
        have harg : (0xF0 + c.toNat / 0x40000 - 0xF0) * 0x40000
            + (0x80 + c.toNat / 0x1000 % 0x40 - 0x80) * 0x1000
            + (0x80 + c.toNat / 0x40 % 0x40 - 0x80) * 0x40
            + (0x80 + c.toNat % 0x40 - 0x80) = c.toNat := by omega
        rw [harg, Char.ofNat_toNat]

theorem utf8Bytes_length_ge (l : List Char) :
    l.length ≤ ((l.map utf8CharBytes).flatten).length := by
  induction l with
  | nil => simp
  | cons c l ih =>
    simp only [List.map_cons, List.flatten_cons, List.length_append, List.length_cons]
    have hc := utf8CharBytes_length_pos c
    omega

theorem utf8DecodeFuel_encode_list (l : List Char) :
    ∀ fuel, l.length ≤ fuel →
      utf8DecodeFuel fuel ((l.map utf8CharBytes).flatten) = some l := by
  induction l with
  | nil =>
    intro fuel _
    cases fuel <;> rfl
  | cons c l ih =>
    intro fuel hf
    cases fuel with
    | zero => simp at hf
    | succ f =>
      rw [List.map_cons, List.flatten_cons, utf8DecodeFuel_append, ih f (by simpa using hf)]
      rfl

theorem utf8Decode_utf8Bytes (s : String) : utf8Decode (utf8Bytes s) = some s.data :=
  utf8DecodeFuel_encode_list s.data (utf8Bytes s).length (utf8Bytes_length_ge s.data)

theorem hexVal_hexDigit {n : Nat} (h : n < 16) : hexVal (hexDigit n) = some n := by
  interval_cases n <;> decide

theorem bytesOfHex_hexOfBytes (l : List Nat) (h : ∀ b ∈ l, b < 256) :
    bytesOfHex (hexOfBytes l) = some l := by
  induction l with
  | nil => rfl
  | cons b l ih =>
    have hb : b < 256 := h b (List.mem_cons_self b l)
    simp only [hexOfBytes, bytesOfHex]
    rw [hexVal_hexDigit (by omega), hexVal_hexDigit (by omega),
      ih (fun x hx => h x (List.mem_cons_of_mem b hx))]
    dsimp only
    have hre : b / 16 * 16 + b % 16 = b := by omega
    rw [hre]

theorem chunks16Fuel_nil (fuel : Nat) : chunks16Fuel fuel [] = [] := by
  cases fuel <;> rfl

theorem chunks16Fuel_cons (f : Nat) (x : Nat) (xs : List Nat) :
    chunks16Fuel (f + 1) (x :: xs) =
      (x :: xs).take 16 :: chunks16Fuel f ((x :: xs).drop 16) := rfl

theorem flatten_chunks16Fuel :
    ∀ (fuel : Nat) (l : List Nat), l.length ≤ fuel →
      (chunks16Fuel fuel l).flatten = l := by
  intro fuel
  induction fuel with
  | zero =>
    intro l hl
    cases l with
    | nil => rfl
    | cons x xs => simp at hl
  | succ f ih =>
    intro l hl
    cases l with
    | nil => rfl
    | cons x xs =>
      rw [chunks16Fuel_cons, List.flatten_cons, ih _ (by simp at hl ⊢; omega)]
      exact List.take_append_drop 16 (x :: xs)

theorem chunks16Fuel_blocks :
    ∀ (fuel : Nat) (l : List Nat), l.length ≤ fuel → l.length % 16 = 0 →
      ∀ b ∈ chunks16Fuel fuel l, b.length = 16 ∧ ∀ x ∈ b, x ∈ l := by
  intro fuel
  induction fuel with
  | zero =>
    intro l hl _
    cases l with
    | nil =>
      intro b hb
      simp [chunks16Fuel_nil] at hb
    | cons x xs => simp at hl
  | succ f ih =>
    intro l hl hmod
    cases l with
    | nil =>
      intro b hb
      simp [chunks16Fuel_nil] at hb
    | cons x xs =>
      intro b hb
      rw [chunks16Fuel_cons] at hb
      have hlen : (x :: xs).length % 16 = 0 := hmod
      have hge : 16 ≤ (x :: xs).length := by
        have h0 : 0 < (x :: xs).length := by simp
        omega
      rcases List.mem_cons.mp hb with rfl | hb
      · constructor
        · rw [List.length_take]
          omega
        · exact fun x hx => List.take_subset 16 _ hx
      · have hd := ih ((x :: xs).drop 16) (by simp at hl ⊢; omega)
          (by rw [List.length_drop]; omega) b hb
        exact ⟨hd.1, fun y hy => List.drop_subset 16 _ (hd.2 y hy)⟩

theorem chunks16Fuel_flatten (bs : List (List Nat)) :
    ∀ fuel, bs.length ≤ fuel → (∀ b ∈ bs, b.length = 16) →
      chunks16Fuel fuel bs.flatten = bs := by
  induction bs with
  | nil =>
    intro fuel _ _
    exact chunks16Fuel_nil fuel
  | cons b bs ih =>
    intro fuel hf hlen
    have hb : b.length = 16 := hlen b (List.mem_cons_self b bs)
    cases fuel with
    | zero => simp at hf
    | succ f =>
      cases hbe : b with
      | nil => rw [hbe] at hb; simp at hb
      | cons y ys =>
        subst hbe
        rw [List.flatten_cons, List.cons_append, chunks16Fuel_cons, ← List.cons_append]
        rw [show (16 : Nat) = (y :: ys).length from hb.symm, List.take_left, List.drop_left]
        rw [ih f (by simpa using hf)
          (fun x hx => hlen x (List.mem_cons_of_mem (y :: ys) hx))]

theorem pkcs7Unpad_pkcs7Pad (l : List Nat) : pkcs7Unpad (pkcs7Pad l) = some l := by
  have hmod : l.length % 16 < 16 := Nat.mod_lt _ (by omega)
  simp only [pkcs7Pad, pkcs7Unpad]
  rw [List.getLast?_append, List.getLast?_replicate,
    if_neg (show ¬(16 - l.length % 16 = 0) from by omega), Option.or_some]
  dsimp only
  have hlen : (l ++ List.replicate (16 - l.length % 16) (16 - l.length % 16)).length
      = l.length + (16 - l.length % 16) := by simp
  have hsub : (l ++ List.replicate (16 - l.length % 16) (16 - l.length % 16)).length
      - (16 - l.length % 16) = l.length := by
    rw [hlen]
    omega
  have hc : 1 ≤ 16 - l.length % 16 ∧ 16 - l.length % 16 ≤ 16
      ∧ 16 - l.length % 16
          ≤ (l ++ List.replicate (16 - l.length % 16) (16 - l.length % 16)).length
      ∧ ((l ++ List.replicate (16 - l.length % 16) (16 - l.length % 16)).drop
          ((l ++ List.replicate (16 - l.length % 16) (16 - l.length % 16)).length
            - (16 - l.length % 16))).all
          (fun b => b == 16 - l.length % 16) := by
    refine ⟨by omega, by omega, by rw [hlen]; omega, ?_⟩
    rw [hsub, List.drop_left]
    simp
  rw [if_pos hc, hsub, List.take_left]

theorem flatten_length_const (bs : List (List Nat)) (h : ∀ b ∈ bs, b.length = 16) :
    bs.flatten.length = 16 * bs.length := by
  induction bs with
  | nil => rfl
  | cons b bs ih =>
    rw [List.flatten_cons, List.length_append, h b (List.mem_cons_self b bs),
      ih (fun x hx => h x (List.mem_cons_of_mem b hx)), List.length_cons]
    ring

/-- C9.  With the block cipher pair `E`/`D` satisfying the collaborator
interface (mutually inverse, block-size- and byte-range-preserving on
16-byte blocks of bytes), decrypting the encryption of any serialized
message string under any configured non-empty `secretKey` yields the
original string — both sides derive the same key through `#padKey` — and
the ciphertext depends only on the `secretKey` (and plaintext), so
re-encrypting under options agreeing on `secretKey` reproduces it
(deterministic ECB: the embedding of `createCipheriv(alg, key, null)`
takes no IV or nonce). -/
theorem encrypt_decrypt_roundtrip
    (E D : List Nat → List Nat → List Nat) (opts : QueueOptions) (msg : String)
    (hkey : opts.secretKey ≠ "")
    (hcipher : ∀ k b, b.length = 16 → (∀ x ∈ b, x < 256) →
      D k (E k b) = b ∧ (E k b).length = 16 ∧ (∀ x ∈ E k b, x < 256)) :
    queueDecrypt D opts (queueEncrypt E opts msg) = some msg
    ∧ (∀ opts2 : QueueOptions, opts2.secretKey = opts.secretKey →
        queueEncrypt E opts2 msg = queueEncrypt E opts msg) := by
  constructor
  · have hptb : ∀ x ∈ utf8Bytes msg, x < 256 := utf8Bytes_lt_256 msg
    have hpadmod : (pkcs7Pad (utf8Bytes msg)).length % 16 = 0 := by
      simp only [pkcs7Pad, List.length_append, List.length_replicate]
      omega
    have hpadbytes : ∀ x ∈ pkcs7Pad (utf8Bytes msg), x < 256 := by
      intro x hx
      simp only [pkcs7Pad] at hx
      rcases List.mem_append.mp hx with hx | hx
      · exact hptb x hx
      · have hxe := List.eq_of_mem_replicate hx
        omega
    have hblocks := chunks16Fuel_blocks (pkcs7Pad (utf8Bytes msg)).length
      (pkcs7Pad (utf8Bytes msg)) le_rfl hpadmod
    have hblen : ∀ b ∈ chunks16 (pkcs7Pad (utf8Bytes msg)), b.length = 16 :=
      fun b hb => (hblocks b hb).1
    have hbbytes : ∀ b ∈ chunks16 (pkcs7Pad (utf8Bytes msg)), ∀ x ∈ b, x < 256 :=
      fun b hb x hx => hpadbytes x ((hblocks b hb).2 x hx)
    have henclen : ∀ b1 ∈ (chunks16 (pkcs7Pad (utf8Bytes msg))).map
        (E (utf8Bytes (padKey opts.secretKey))), b1.length = 16 := by
      intro b1 hb1
      rcases List.mem_map.mp hb1 with ⟨b, hb, rfl⟩
      exact (hcipher _ b (hblen b hb) (hbbytes b hb)).2.1
    have hct256 : ∀ x ∈ ecbEncrypt (E (utf8Bytes (padKey opts.secretKey)))
        (utf8Bytes msg), x < 256 := by
      intro x hx
      simp only [ecbEncrypt] at hx
      rcases List.mem_flatten.mp hx with ⟨b1, hb1, hxb⟩
      rcases List.mem_map.mp hb1 with ⟨b, hb, rfl⟩
      exact (hcipher _ b (hblen b hb) (hbbytes b hb)).2.2 x hxb
    have hctlen : ((chunks16 (pkcs7Pad (utf8Bytes msg))).map
          (E (utf8Bytes (padKey opts.secretKey)))).length
        ≤ (ecbEncrypt (E (utf8Bytes (padKey opts.secretKey))) (utf8Bytes msg)).length := by
      simp only [ecbEncrypt]
      rw [flatten_length_const _ henclen]
      omega
    have hchunks : chunks16 (ecbEncrypt (E (utf8Bytes (padKey opts.secretKey)))
          (utf8Bytes msg))
        = (chunks16 (pkcs7Pad (utf8Bytes msg))).map
            (E (utf8Bytes (padKey opts.secretKey))) := by
      simp only [chunks16, ecbEncrypt] at hctlen ⊢
      exact chunks16Fuel_flatten _ _ hctlen henclen
    have hmapinv : ∀ bs : List (List Nat),
        (∀ b ∈ bs, b.length = 16 ∧ ∀ x ∈ b, x < 256) →
          List.map (D (utf8Bytes (padKey opts.secretKey)))
            (List.map (E (utf8Bytes (padKey opts.secretKey))) bs) = bs := by
      intro bs
      induction bs with
      | nil => intro _; rfl
      | cons b bs ih =>
        intro hbs
        simp only [List.map_cons]
        rw [(hcipher _ b (hbs b (List.mem_cons_self b bs)).1
              (hbs b (List.mem_cons_self b bs)).2).1,
          ih (fun x hx => hbs x (List.mem_cons_of_mem b hx))]
    have hecb : ecbDecrypt (D (utf8Bytes (padKey opts.secretKey)))
          (ecbEncrypt (E (utf8Bytes (padKey opts.secretKey))) (utf8Bytes msg))
        = some (utf8Bytes msg) := by
      simp only [ecbDecrypt]
      rw [hchunks, hmapinv _ (fun b hb => ⟨hblen b hb, hbbytes b hb⟩)]
      rw [show (chunks16 (pkcs7Pad (utf8Bytes msg))).flatten = pkcs7Pad (utf8Bytes msg) from
        flatten_chunks16Fuel _ _ le_rfl]
      exact pkcs7Unpad_pkcs7Pad _
    simp only [queueEncrypt, queueDecrypt, if_neg hkey]
    rw [bytesOfHex_hexOfBytes _ hct256]
    dsimp only
    rw [hecb]
    dsimp only
    rw [utf8Decode_utf8Bytes]
  · intro opts2 h2
    simp only [queueEncrypt, h2]

/-- Witness for C9: the identity block cipher satisfies the collaborator
interface; round-tripping the concrete message `"hi"` under the key
`"s3cret"` recovers it. -/
theorem encrypt_decrypt_roundtrip_witness :
    queueDecrypt (fun _ b => b) optsSecret
      (queueEncrypt (fun _ b => b) optsSecret "hi") = some "hi" :=
  (encrypt_decrypt_roundtrip (fun _ b => b) (fun _ b => b) optsSecret "hi"
    (by decide)
    (fun _ b h1 h2 => ⟨rfl, h1, fun x hx => h2 x hx⟩)).1

end BBQ
